import Mathlib

/-!
Verification development for the order-submission guard subsystem of the
binance futures client fork: the bounded order history (`TopN` /
`TopNEntry`, src/futures/utils/top_n.rs), the per-symbol order tracker
(src/futures/utils/order_tracker.rs) and the expected-order-request rule
engine (src/futures/utils/expected_order_requests/).

Modelling conventions:
* `rust_decimal::Decimal` is modelled as `Int`: the guard subsystem only
  stores and compares these values, never does arithmetic on them.
* The `BTreeSet<TopNEntry<T>>` of `TopN` is modelled as a strictly
  ascending list (the iteration order of the B-tree); `pop_first`
  removes the head, which on a sorted list is the minimum element.
* Machine integers (`u64`, `usize`) are modelled as `Nat`; the one place
  where overflow could occur (`RulePeriod::get_duration` multiplication)
  reduces modulo `2 ^ 64`.
* File-system and clock effects of the order tracker are passed as
  explicit parameters (current nanosecond timestamp, uuid, the symbol's
  in-memory slot, the on-disk snapshot state, and whether the snapshot
  write succeeds), and the new in-memory slot is returned alongside the
  result.
-/

/-- `rust_decimal::Decimal`, modelled as an integer (only stored and
compared by the guard subsystem). -/
abbrev Decimal : Type := Int

/-- `OrderSide` from src/rest_model.rs. -/
inductive OrderSide where
  | Buy : OrderSide
  | Sell : OrderSide
deriving DecidableEq, Repr

/-- Numeric key used to order `OrderSide` by declaration order
(`Buy < Sell`), as Rust's derived `Ord` would. -/
def OrderSide.key : OrderSide → Nat
  | .Buy => 0
  | .Sell => 1

instance : LinearOrder OrderSide :=
  LinearOrder.lift' OrderSide.key (by
    intro a b h
    cases a <;> cases b <;> simp [OrderSide.key] at h ⊢)

/-- `OrderTrackingItem` from src/futures/utils/order_tracking_item.rs:
the record stored per order submission. -/
structure OrderTrackingItem where
  size : Decimal
  price : Decimal
  side : OrderSide
  id : String
deriving DecidableEq, Repr

/-- The comparison key realising `Ord for OrderTrackingItem`
(src/futures/utils/order_tracking_item.rs): id, then price, then size,
then side, lexicographically. -/
def OrderTrackingItem.key (x : OrderTrackingItem) :
    Lex (String × Lex (Decimal × Lex (Decimal × OrderSide))) :=
  toLex (x.id, toLex (x.price, toLex (x.size, x.side)))

instance : LinearOrder OrderTrackingItem :=
  LinearOrder.lift' OrderTrackingItem.key (by
    intro x y h
    cases x; cases y
    simp [OrderTrackingItem.key, toLex, Prod.ext_iff] at h
    obtain ⟨h1, h2, h3, h4⟩ := h
    simp [h1, h2, h3, h4])

/-- `TopNEntry<T>` from src/futures/utils/top_n.rs: a record paired
with its submission timestamp (nanoseconds, `u64`). -/
structure TopNEntry (T : Type) where
  timestamp : Nat
  item : T
deriving DecidableEq, Repr

namespace TopNEntry

variable {T : Type} [LinearOrder T]

/-- The total order of `Ord for TopNEntry<T>`: primary sort by
timestamp ascending, tie-breaker by the item's own total order. -/
def lt (a b : TopNEntry T) : Prop :=
  a.timestamp < b.timestamp ∨ (a.timestamp = b.timestamp ∧ a.item < b.item)

instance instDecLt (a b : TopNEntry T) : Decidable (TopNEntry.lt a b) := by
  unfold TopNEntry.lt
  exact inferInstance

theorem lt_irrefl (a : TopNEntry T) : ¬ TopNEntry.lt a a := by
  simp [TopNEntry.lt]

theorem lt_trans {a b c : TopNEntry T} (hab : TopNEntry.lt a b)
    (hbc : TopNEntry.lt b c) : TopNEntry.lt a c := by
  rcases hab with h1 | ⟨e1, h1⟩ <;> rcases hbc with h2 | ⟨e2, h2⟩
  · exact Or.inl (Nat.lt_trans h1 h2)
  · exact Or.inl (e2 ▸ h1)
  · exact Or.inl (e1 ▸ h2)
  · exact Or.inr ⟨e1.trans e2, h1.trans h2⟩

theorem lt_total (a b : TopNEntry T) :
    TopNEntry.lt a b ∨ a = b ∨ TopNEntry.lt b a := by
  rcases Nat.lt_trichotomy a.timestamp b.timestamp with h | h | h
  · exact Or.inl (Or.inl h)
  · rcases lt_trichotomy a.item b.item with hi | hi | hi
    · exact Or.inl (Or.inr ⟨h, hi⟩)
    · refine Or.inr (Or.inl ?_)
      cases a; cases b
      simp_all
    · exact Or.inr (Or.inr (Or.inr ⟨h.symm, hi⟩))
  · exact Or.inr (Or.inr (Or.inl h))

theorem lt_asymm {a b : TopNEntry T} (h : TopNEntry.lt a b) :
    ¬ TopNEntry.lt b a := by
  intro h'
  exact TopNEntry.lt_irrefl a (TopNEntry.lt_trans h h')

theorem lt_of_ne_of_not_lt {a b : TopNEntry T} (hne : a ≠ b)
    (h : ¬ TopNEntry.lt a b) : TopNEntry.lt b a := by
  rcases TopNEntry.lt_total a b with h1 | h1 | h1
  · exact absurd h1 h
  · exact absurd h1 hne
  · exact h1

end TopNEntry

/-- Ordered insertion into the ascending entry list, placing `e` before
the first strictly greater element. This is the list-model counterpart
of `BTreeSet::insert` for an element not already present. -/
def insertEntry {T : Type} [LinearOrder T] (e : TopNEntry T) :
    List (TopNEntry T) → List (TopNEntry T)
  | [] => [e]
  | x :: xs => if TopNEntry.lt e x then e :: x :: xs else x :: insertEntry e xs

/-- `TopN<T>` from src/futures/utils/top_n.rs: a capacity-bounded
ordered set of timestamped entries. The `BTreeSet` is modelled as its
ascending iteration order. -/
structure TopN (T : Type) where
  set : List (TopNEntry T)
  capacity : Nat
deriving DecidableEq, Repr

namespace TopN

variable {T : Type} [LinearOrder T]

/-- `TopN::new(capacity, set)` (src/futures/utils/top_n.rs):
`set.unwrap_or_else(BTreeSet::new)` with the given capacity. -/
def new (capacity : Nat) (set : Option (List (TopNEntry T))) : TopN T :=
  { set := set.getD [], capacity := capacity }

/-- `TopN::insert` (src/futures/utils/top_n.rs): return unchanged if the
set already contains an entry equal to `item` (full `(timestamp, item)`
equality); otherwise insert it, then if `len() > capacity` remove the
minimum element (`pop_first`, the head of the ascending list). -/
def insert (h : TopN T) (item : TopNEntry T) : TopN T :=
  if item ∈ h.set then h
  else if (insertEntry item h.set).length > h.capacity
  then { h with set := (insertEntry item h.set).tail }
  else { h with set := insertEntry item h.set }

/-- `TopN::is_empty`. -/
def is_empty (h : TopN T) : Bool :=
  h.set.isEmpty

/-- `TopN::get_capacity`. -/
def get_capacity (h : TopN T) : Nat :=
  h.capacity

/-- `TopN::get_all`: the entries in ascending `(timestamp, item)`
order. -/
def get_all (h : TopN T) : List (TopNEntry T) :=
  h.set

/-- The content of `TopN::get_set_json` (src/futures/utils/top_n.rs):
`serde_json` serializes the `BTreeSet` as the array of its entries in
ascending iteration order, so the snapshot is modelled by that ordered
list. -/
def get_set (h : TopN T) : List (TopNEntry T) :=
  h.set

end TopN

/-- Rebuilding a `BTreeSet` from the sequence of entries of a decoded
snapshot array: each entry is inserted in turn (`BTreeSet` insertion,
which ignores an element already present). -/
def setFromList {T : Type} [LinearOrder T] (l : List (TopNEntry T)) :
    List (TopNEntry T) :=
  l.foldl (fun s e => if e ∈ s then s else insertEntry e s) []

/-- `load_top_n_from_file` (src/futures/utils/order_tracker.rs) after a
successful read and deserialize: the decoded `BTreeSet` is wrapped by
`TopN::new(capacity, Some(set))`; the capacity comes from the caller,
not from the file. -/
def load_top_n {T : Type} [LinearOrder T] (l : List (TopNEntry T))
    (capacity : Nat) : TopN T :=
  TopN.new capacity (some (setFromList l))

/-- The strict-ascending-order invariant a `BTreeSet` maintains on its
iteration order. -/
abbrev EntriesSorted {T : Type} [LinearOrder T] (l : List (TopNEntry T)) : Prop :=
  l.Pairwise TopNEntry.lt

theorem mem_insertEntry {T : Type} [LinearOrder T] (e x : TopNEntry T)
    (l : List (TopNEntry T)) :
    x ∈ insertEntry e l ↔ x = e ∨ x ∈ l := by
  induction l with
  | nil => simp [insertEntry]
  | cons a as ih =>
    by_cases h : TopNEntry.lt e a
    · simp only [insertEntry, if_pos h, List.mem_cons]
    · simp only [insertEntry, if_neg h, List.mem_cons, ih]
      tauto

theorem length_insertEntry {T : Type} [LinearOrder T] (e : TopNEntry T)
    (l : List (TopNEntry T)) :
    (insertEntry e l).length = l.length + 1 := by
  induction l with
  | nil => simp [insertEntry]
  | cons a as ih =>
    by_cases h : TopNEntry.lt e a <;> simp [insertEntry, h, ih]

theorem insertEntry_ne_nil {T : Type} [LinearOrder T] (e : TopNEntry T)
    (l : List (TopNEntry T)) : insertEntry e l ≠ [] := by
  intro h
  have := length_insertEntry e l
  simp [h] at this

theorem sorted_insertEntry {T : Type} [LinearOrder T] {e : TopNEntry T}
    {l : List (TopNEntry T)} (hs : EntriesSorted l) (hmem : e ∉ l) :
    EntriesSorted (insertEntry e l) := by
  induction l with
  | nil => simp [insertEntry, EntriesSorted]
  | cons a as ih =>
    rcases (List.pairwise_cons.mp hs) with ⟨ha, has⟩
    by_cases h : TopNEntry.lt e a
    · simp only [insertEntry, if_pos h]
      refine List.pairwise_cons.mpr ⟨?_, hs⟩
      intro b hb
      rw [List.mem_cons] at hb
      rcases hb with rfl | hb
      · exact h
      · exact TopNEntry.lt_trans h (ha b hb)
    · have hne : e ≠ a := by
        intro hEq
        exact hmem (hEq ▸ List.mem_cons_self a as)
      have hae : TopNEntry.lt a e := TopNEntry.lt_of_ne_of_not_lt hne h
      have hmem' : e ∉ as := fun hx => hmem (List.mem_cons_of_mem a hx)
      simp only [insertEntry, if_neg h]
      refine List.pairwise_cons.mpr ⟨?_, ih has hmem'⟩
      intro b hb
      rcases (mem_insertEntry e b as).mp hb with rfl | hb
      · exact hae
      · exact ha b hb

theorem sorted_head_lt {T : Type} [LinearOrder T] {x : TopNEntry T}
    {xs : List (TopNEntry T)} (hs : EntriesSorted (x :: xs)) :
    ∀ y ∈ xs, TopNEntry.lt x y :=
  (List.pairwise_cons.mp hs).1

theorem sorted_tail {T : Type} [LinearOrder T] {l : List (TopNEntry T)}
    (hs : EntriesSorted l) : EntriesSorted l.tail := by
  cases l with
  | nil => exact hs
  | cons a as => exact (List.pairwise_cons.mp hs).2

theorem sorted_nodup {T : Type} [LinearOrder T] {l : List (TopNEntry T)}
    (hs : EntriesSorted l) : l.Nodup := by
  refine List.Pairwise.imp ?_ hs
  intro a b hab
  intro hEq
  exact TopNEntry.lt_irrefl a (hEq ▸ hab)

/-- `TopN::insert` folded over a sequence of entries, starting from a
given history: the state of the history after each insert of the
sequence. -/
def TopN.insertAll {T : Type} [LinearOrder T] (h : TopN T)
    (es : List (TopNEntry T)) : TopN T :=
  es.foldl TopN.insert h

/-- The retention invariant of a `TopN` relative to the finite set `S`
of all entries ever inserted: the stored list is strictly ascending, is
drawn from `S`, has exactly `min capacity S.card` elements, and every
inserted entry that is not retained is strictly below every retained
entry — together: the retained entries are exactly the
`min capacity S.card` largest distinct entries of `S`. -/
def TopNInv {T : Type} [LinearOrder T] (h : TopN T)
    (S : Finset (TopNEntry T)) : Prop :=
  EntriesSorted h.set ∧
  (∀ e ∈ h.set, e ∈ S) ∧
  h.set.length = min h.capacity S.card ∧
  (∀ x ∈ S, x ∉ h.set → ∀ y ∈ h.set, TopNEntry.lt x y)

theorem topNInv_mem_iff {T : Type} [LinearOrder T] {h : TopN T}
    {S : Finset (TopNEntry T)} (hinv : TopNInv h S)
    (hlt : h.set.length < h.capacity) :
    ∀ x, x ∈ S ↔ x ∈ h.set := by
  obtain ⟨hs, hsub, hlen, _⟩ := hinv
  have hcard : S.card = h.set.length := by omega
  have hub : h.set.toFinset ⊆ S := by
    intro x hx
    exact hsub x (List.mem_toFinset.mp hx)
  have hcard2 : h.set.toFinset.card = h.set.length :=
    List.toFinset_card_of_nodup (sorted_nodup hs)
  have : h.set.toFinset = S :=
    Finset.eq_of_subset_of_card_le hub (by omega)
  intro x
  rw [← this, List.mem_toFinset]

theorem topNInv_insert {T : Type} [LinearOrder T] {h : TopN T}
    {S : Finset (TopNEntry T)} (hinv : TopNInv h S) (e : TopNEntry T) :
    TopNInv (h.insert e) (insert e S) := by
  obtain ⟨hs, hsub, hlen, hmax⟩ := hinv
  by_cases hmem : e ∈ h.set
  · have heS : e ∈ S := hsub e hmem
    have hins : insert e S = S := Finset.insert_eq_self.mpr heS
    unfold TopN.insert
    rw [if_pos hmem, hins]
    exact ⟨hs, hsub, hlen, hmax⟩
  · have hlenins := length_insertEntry e h.set
    by_cases hover : (insertEntry e h.set).length > h.capacity
    · -- at capacity: the entry goes in, then `pop_first` drops the minimum
      have hcap : h.set.length = h.capacity ∧ h.capacity ≤ S.card := by omega
      obtain ⟨m, t, hst⟩ : ∃ m t, insertEntry e h.set = m :: t := by
        cases hq : insertEntry e h.set with
        | nil => exact absurd hq (insertEntry_ne_nil e h.set)
        | cons m t => exact ⟨m, t, rfl⟩
      have sorted_s : EntriesSorted (m :: t) := hst ▸ sorted_insertEntry hs hmem
      have hmems : ∀ x, x ∈ m :: t ↔ x = e ∨ x ∈ h.set := by
        intro x
        rw [← hst]
        exact mem_insertEntry e x h.set
      have hlent : t.length = h.capacity := by
        have : (m :: t).length = h.set.length + 1 := hst ▸ hlenins
        simp at this
        omega
      unfold TopN.insert
      rw [if_neg hmem, if_pos hover, hst]
      refine ⟨(List.pairwise_cons.mp sorted_s).2, ?_, ?_, ?_⟩
      · intro x hx
        rcases (hmems x).mp (List.mem_cons_of_mem m hx) with rfl | hx'
        · exact Finset.mem_insert_self x S
        · exact Finset.mem_insert_of_mem (hsub x hx')
      · have hS' : S.card ≤ (insert e S).card :=
          Finset.card_le_card (Finset.subset_insert e S)
        simp only [List.tail_cons]
        omega
      · intro x hxS' hxt y hyt
        simp only [List.tail_cons] at hxt hyt
        by_cases hxm : x = m
        · exact hxm ▸ sorted_head_lt sorted_s y hyt
        · have hxe : x ≠ e := by
            rintro rfl
            rcases List.mem_cons.mp ((hmems x).mpr (Or.inl rfl)) with h1 | h1
            · exact hxm h1
            · exact hxt h1
          have hxS : x ∈ S := by
            rcases Finset.mem_insert.mp hxS' with h1 | h1
            · exact absurd h1 hxe
            · exact h1
          have hxset : x ∉ h.set := by
            intro hx
            rcases List.mem_cons.mp ((hmems x).mpr (Or.inr hx)) with h1 | h1
            · exact hxm h1
            · exact hxt h1
          have hx_all := hmax x hxS hxset
          rcases (hmems y).mp (List.mem_cons_of_mem m hyt) with rfl | hyset
          · have hme : m ≠ y := by
              rintro rfl
              exact TopNEntry.lt_irrefl m (sorted_head_lt sorted_s m hyt)
            have hmset : m ∈ h.set := by
              rcases (hmems m).mp (List.mem_cons_self m t) with h1 | h1
              · exact absurd h1 hme
              · exact h1
            have h2 : TopNEntry.lt m y := by
              rcases List.mem_cons.mp ((hmems y).mpr (Or.inl rfl)) with h1 | h1
              · exact absurd h1.symm hme
              · exact sorted_head_lt sorted_s y h1
            exact TopNEntry.lt_trans (hx_all m hmset) h2
          · exact hx_all y hyset
    · -- below capacity: plain ordered insert, no eviction
      have hlt : h.set.length < h.capacity := by omega
      have hiff := topNInv_mem_iff ⟨hs, hsub, hlen, hmax⟩ hlt
      have heS : e ∉ S := fun hx => hmem ((hiff e).mp hx)
      have hcard : S.card = h.set.length := by omega
      unfold TopN.insert
      rw [if_neg hmem, if_neg hover]
      refine ⟨sorted_insertEntry hs hmem, ?_, ?_, ?_⟩
      · intro x hx
        rcases (mem_insertEntry e x h.set).mp hx with rfl | hx'
        · exact Finset.mem_insert_self x S
        · exact Finset.mem_insert_of_mem (hsub x hx')
      · rw [Finset.card_insert_of_not_mem heS]
        simp only []
        omega
      · intro x hxS' hxt y _
        exfalso
        rcases Finset.mem_insert.mp hxS' with rfl | h1
        · exact hxt ((mem_insertEntry x x h.set).mpr (Or.inl rfl))
        · exact hxt ((mem_insertEntry e x h.set).mpr (Or.inr ((hiff x).mp h1)))

theorem topNInv_insertAll {T : Type} [LinearOrder T] (es : List (TopNEntry T)) :
    ∀ (h : TopN T) (S : Finset (TopNEntry T)), TopNInv h S →
    TopNInv (h.insertAll es) (S ∪ es.toFinset) := by
  induction es with
  | nil =>
    intro h S hinv
    simpa [TopN.insertAll] using hinv
  | cons e es ih =>
    intro h S hinv
    have h2 := ih (h.insert e) (insert e S) (topNInv_insert hinv e)
    have heq : insert e S ∪ es.toFinset = S ∪ (e :: es).toFinset := by
      ext x
      simp only [Finset.mem_union, Finset.mem_insert, List.toFinset_cons,
        List.mem_toFinset]
      tauto
    rw [heq] at h2
    simpa [TopN.insertAll, List.foldl_cons] using h2

theorem topNInv_empty {T : Type} [LinearOrder T] (k : Nat) :
    TopNInv (TopN.new (T := T) k none) ∅ := by
  refine ⟨by simp [TopN.new], by simp [TopN.new], by simp [TopN.new], by simp⟩

theorem topn_insert_capacity {T : Type} [LinearOrder T] (h : TopN T)
    (e : TopNEntry T) : (h.insert e).capacity = h.capacity := by
  unfold TopN.insert
  split
  · rfl
  · split <;> rfl

theorem topn_insertAll_capacity {T : Type} [LinearOrder T]
    (es : List (TopNEntry T)) :
    ∀ h : TopN T, (h.insertAll es).capacity = h.capacity := by
  induction es with
  | nil =>
    intro h
    rfl
  | cons e es ih =>
    intro h
    have h1 := ih (h.insert e)
    simp only [TopN.insertAll, List.foldl_cons] at h1 ⊢
    rw [h1, topn_insert_capacity]

/-- C1: starting from an empty `TopN` of capacity `k`, after any
sequence of inserts the length is at most `k`, the retained entries are
a strictly ascending selection from the inserted entries of size
`min k (number of distinct inserted entries)`, and every inserted entry
that is not retained is strictly below (by `(timestamp, item)` order)
every retained entry — i.e. exactly the `k` largest distinct entries
are retained; and concretely, a capacity-3 history holding timestamps
`[10, 20, 30]` with distinct items is left unchanged by inserting a
distinct entry with timestamp `5` (the new minimum enters and is
immediately evicted by `pop_first`). -/
theorem topn_insert_bounded_retains_largest :
    (∀ (T : Type) [inst : LinearOrder T] (k : Nat) (es : List (TopNEntry T)),
      ((TopN.new k none).insertAll es).set.length ≤ k ∧
      ((TopN.new k none).insertAll es).set.length = min k es.toFinset.card ∧
      EntriesSorted ((TopN.new k none).insertAll es).set ∧
      (∀ e ∈ ((TopN.new k none).insertAll es).set, e ∈ es) ∧
      (∀ x ∈ es, x ∉ ((TopN.new k none).insertAll es).set →
        ∀ y ∈ ((TopN.new k none).insertAll es).set, TopNEntry.lt x y)) ∧
    (((TopN.new 3 none).insertAll
        [⟨10, 1⟩, ⟨20, 2⟩, ⟨30, 3⟩] : TopN Nat).insert ⟨5, 4⟩ =
      (TopN.new 3 none).insertAll [⟨10, 1⟩, ⟨20, 2⟩, ⟨30, 3⟩]) := by
  constructor
  · intro T inst k es
    have hinv := topNInv_insertAll es (TopN.new k none) ∅ (topNInv_empty k)
    rw [Finset.empty_union] at hinv
    obtain ⟨hs, hsub, hlen, hmax⟩ := hinv
    have hcap : ((TopN.new (T := T) k none).insertAll es).capacity = k := by
      rw [topn_insertAll_capacity]
      rfl
    rw [hcap] at hlen
    refine ⟨?_, hlen, hs, ?_, ?_⟩
    · rw [hlen]
      exact min_le_left _ _
    · intro e he
      exact List.mem_toFinset.mp (hsub e he)
    · intro x hx hxn y hy
      exact hmax x (List.mem_toFinset.mpr hx) hxn y hy
  · decide

/-- Witness for `topn_insert_bounded_retains_largest`: the general part
evaluated on a concrete capacity-2 history receiving three entries. -/
theorem topn_insert_bounded_retains_largest_witness :
    (((TopN.new 2 none).insertAll
      [⟨5, 0⟩, ⟨7, 1⟩, ⟨6, 2⟩] : TopN Nat)).set.length ≤ 2 :=
  (topn_insert_bounded_retains_largest.1 Nat 2 [⟨5, 0⟩, ⟨7, 1⟩, ⟨6, 2⟩]).1

/-- C5: `TopN::insert` is a no-op exactly on full `(timestamp, item)`
equality — inserting an entry equal to a retained one returns the
history unchanged, with no eviction — while an entry colliding only on
the timestamp (every retained entry with the same timestamp has a
different item) is not treated as a duplicate: it is inserted and, when
the history is below capacity, retained with the length growing by
one. -/
theorem topn_insert_idempotent_and_timestamp_collision :
    (∀ (T : Type) [inst : LinearOrder T] (h : TopN T) (e : TopNEntry T),
      e ∈ h.set → h.insert e = h) ∧
    (∀ (T : Type) [inst : LinearOrder T] (h : TopN T) (e : TopNEntry T),
      (∀ e2 ∈ h.set, e2.timestamp = e.timestamp → e2.item ≠ e.item) →
      (∃ e2 ∈ h.set, e2.timestamp = e.timestamp) →
      h.set.length < h.capacity →
      e ∈ (h.insert e).set ∧ (h.insert e).set.length = h.set.length + 1) := by
  constructor
  · intro T inst h e hmem
    unfold TopN.insert
    rw [if_pos hmem]
  · intro T inst h e hdiff _ hroom
    have hmem : e ∉ h.set := by
      intro hx
      exact hdiff e hx rfl rfl
    have hlen := length_insertEntry e h.set
    have hover : ¬ (insertEntry e h.set).length > h.capacity := by omega
    unfold TopN.insert
    rw [if_neg hmem, if_neg hover]
    exact ⟨(mem_insertEntry e e h.set).mpr (Or.inl rfl), hlen⟩

/-- Witness for `topn_insert_idempotent_and_timestamp_collision`: a
capacity-3 history holding the single timestamp-1 entry with item 0 is
unchanged by re-inserting that entry, and grows when an entry with the
same timestamp but item 5 is inserted. -/
theorem topn_insert_idempotent_and_timestamp_collision_witness :
    ((⟨[⟨1, 0⟩], 3⟩ : TopN Nat).insert ⟨1, 0⟩ = ⟨[⟨1, 0⟩], 3⟩) ∧
    ((⟨1, 5⟩ : TopNEntry Nat) ∈ ((⟨[⟨1, 0⟩], 3⟩ : TopN Nat).insert ⟨1, 5⟩).set ∧
      ((⟨[⟨1, 0⟩], 3⟩ : TopN Nat).insert ⟨1, 5⟩).set.length =
        ([⟨1, 0⟩] : List (TopNEntry Nat)).length + 1) :=
  ⟨topn_insert_idempotent_and_timestamp_collision.1 Nat ⟨[⟨1, 0⟩], 3⟩ ⟨1, 0⟩
      (by decide),
   topn_insert_idempotent_and_timestamp_collision.2 Nat ⟨[⟨1, 0⟩], 3⟩ ⟨1, 5⟩
      (by decide) (by decide) (by decide)⟩

theorem insertEntry_append_of_forall_lt {T : Type} [LinearOrder T]
    {e : TopNEntry T} {l : List (TopNEntry T)}
    (hall : ∀ x ∈ l, TopNEntry.lt x e) : insertEntry e l = l ++ [e] := by
  induction l with
  | nil => rfl
  | cons a as ih =>
    have hna : ¬ TopNEntry.lt e a :=
      TopNEntry.lt_asymm (hall a (List.mem_cons_self a as))
    simp only [insertEntry, if_neg hna, List.cons_append]
    rw [ih (fun x hx => hall x (List.mem_cons_of_mem a hx))]

/-- Deserializing a snapshot that lists strictly ascending entries
rebuilds exactly that entry sequence. -/
theorem setFromList_of_sorted {T : Type} [LinearOrder T]
    {l : List (TopNEntry T)} (hs : EntriesSorted l) : setFromList l = l := by
  induction l using List.reverseRecOn with
  | nil => rfl
  | append_singleton l e ih =>
    obtain ⟨hsl, _, hcross⟩ := List.pairwise_append.mp hs
    have hall : ∀ x ∈ l, TopNEntry.lt x e :=
      fun x hx => hcross x hx e (List.mem_singleton_self e)
    have hmem : e ∉ l := by
      intro hx
      exact TopNEntry.lt_irrefl e (hall e hx)
    unfold setFromList
    rw [List.foldl_append]
    have h1 : List.foldl
        (fun s e2 => if e2 ∈ s then s else insertEntry e2 s) [] l = l := ih hsl
    rw [h1]
    simp only [List.foldl_cons, List.foldl_nil, if_neg hmem]
    exact insertEntry_append_of_forall_lt hall

/-- C4: snapshot round-trip — for any history whose entry list is in
the `BTreeSet`'s strictly ascending order, restoring the serialized
snapshot while supplying the history's own capacity yields the history
back (same entries, same capacity), and the snapshot itself is the
deterministic, fully-ordered (strictly ascending) form of the entry
set. -/
theorem topn_snapshot_round_trip (T : Type) [inst : LinearOrder T]
    (h : TopN T) (hs : EntriesSorted h.set) :
    load_top_n (TopN.get_set h) h.capacity = h ∧
    EntriesSorted (TopN.get_set h) := by
  refine ⟨?_, hs⟩
  unfold load_top_n TopN.new TopN.get_set
  rw [setFromList_of_sorted hs]
  simp

/-- Witness for `topn_snapshot_round_trip` on a concrete two-entry
history. -/
theorem topn_snapshot_round_trip_witness :
    load_top_n (TopN.get_set (⟨[⟨1, 0⟩, ⟨2, 1⟩], 5⟩ : TopN Nat)) 5 =
      (⟨[⟨1, 0⟩, ⟨2, 1⟩], 5⟩ : TopN Nat) :=
  (topn_snapshot_round_trip Nat ⟨[⟨1, 0⟩, ⟨2, 1⟩], 5⟩
    (by simp [TopNEntry.lt])).1

theorem topn_insert_length_bounds {T : Type} [LinearOrder T] (h : TopN T)
    (e : TopNEntry T) :
    h.set.length ≤ (h.insert e).set.length ∧
    (h.insert e).set.length ≤ h.set.length + 1 := by
  have hlen := length_insertEntry e h.set
  unfold TopN.insert
  by_cases hmem : e ∈ h.set
  · rw [if_pos hmem]
    omega
  · rw [if_neg hmem]
    by_cases hover : (insertEntry e h.set).length > h.capacity
    · rw [if_pos hover]
      simp only [List.length_tail]
      omega
    · rw [if_neg hover]
      simp only []
      omega

/-- C9: `load_top_n_from_file` does not enforce the capacity bound — a
snapshot holding more (strictly ascending) entries than the supplied
capacity restores to a history longer than its capacity, with no
truncation — and `TopN::insert` removes at most one element (the length
never decreases), so a history whose length exceeds its capacity still
exceeds it after any further insert. -/
theorem topn_restore_no_capacity_enforcement :
    (∀ (T : Type) [inst : LinearOrder T] (l : List (TopNEntry T)) (k : Nat),
      EntriesSorted l → l.length > k →
      (load_top_n l k).set.length = l.length ∧
      (load_top_n l k).set.length > k ∧
      (load_top_n l k).capacity = k) ∧
    (∀ (T : Type) [inst : LinearOrder T] (h : TopN T) (e : TopNEntry T),
      h.set.length ≤ (h.insert e).set.length ∧
      (h.insert e).set.length ≤ h.set.length + 1 ∧
      (h.insert e).capacity = h.capacity) ∧
    (∀ (T : Type) [inst : LinearOrder T] (h : TopN T) (e : TopNEntry T),
      h.set.length > h.capacity →
      (h.insert e).set.length > (h.insert e).capacity) := by
  refine ⟨?_, ?_, ?_⟩
  · intro T inst l k hs hlong
    have : (load_top_n l k : TopN T).set = l := by
      unfold load_top_n TopN.new
      simp [setFromList_of_sorted hs]
    rw [this]
    exact ⟨rfl, hlong, rfl⟩
  · intro T inst h e
    obtain ⟨h1, h2⟩ := topn_insert_length_bounds h e
    exact ⟨h1, h2, topn_insert_capacity h e⟩
  · intro T inst h e hover
    obtain ⟨h1, _⟩ := topn_insert_length_bounds h e
    rw [topn_insert_capacity h e]
    omega

/-- Witness for `topn_restore_no_capacity_enforcement`: a three-entry
snapshot restored with capacity 1 yields a history of length 3, which
still exceeds its capacity after inserting a fourth entry. -/
theorem topn_restore_no_capacity_enforcement_witness :
    ((load_top_n [⟨1, 0⟩, ⟨2, 1⟩, ⟨3, 2⟩] 1 : TopN Nat).set.length =
      ([⟨1, 0⟩, ⟨2, 1⟩, ⟨3, 2⟩] : List (TopNEntry Nat)).length ∧
     (load_top_n [⟨1, 0⟩, ⟨2, 1⟩, ⟨3, 2⟩] 1 : TopN Nat).set.length > 1 ∧
     (load_top_n [⟨1, 0⟩, ⟨2, 1⟩, ⟨3, 2⟩] 1 : TopN Nat).capacity = 1) ∧
    (((load_top_n [⟨1, 0⟩, ⟨2, 1⟩, ⟨3, 2⟩] 1 : TopN Nat).insert
        ⟨4, 3⟩).set.length >
      ((load_top_n [⟨1, 0⟩, ⟨2, 1⟩, ⟨3, 2⟩] 1 : TopN Nat).insert
        ⟨4, 3⟩).capacity) :=
  ⟨topn_restore_no_capacity_enforcement.1 Nat [⟨1, 0⟩, ⟨2, 1⟩, ⟨3, 2⟩] 1
      (by decide) (by decide),
   topn_restore_no_capacity_enforcement.2.2 Nat
      (load_top_n [⟨1, 0⟩, ⟨2, 1⟩, ⟨3, 2⟩] 1) ⟨4, 3⟩ (by decide)⟩

/-- `u64` modulus, for the one multiplication that can overflow. -/
def U64 : Nat := 2 ^ 64

/-- `MIN_RULE_PERIOD_DURATION_SECS`
(src/futures/utils/expected_order_requests/rule_period.rs). -/
def MIN_RULE_PERIOD_DURATION_SECS : Nat := 120

/-- `RulePeriod`
(src/futures/utils/expected_order_requests/rule_period.rs). -/
inductive RulePeriod where
  | Seconds (n : Nat) : RulePeriod
  | Minutes (n : Nat) : RulePeriod
  | Hours (n : Nat) : RulePeriod
  | Days (n : Nat) : RulePeriod
  | Weeks (n : Nat) : RulePeriod
deriving DecidableEq, Repr

/-- Modelled from usage and the spec (§7): `errors.rs` is not under
src/. `ExpectedOrdersRuleViolated` is the variant constructed at every
failure site of the rule engine (rules_map.rs and rule_period.rs all
build `Error::ExpectedOrdersRuleViolated(format!(..))`); `Msg` stands
for the `anyhow!(..).into()` errors of `set_rules_for_symbol` and the
order tracker. -/
inductive Error where
  | ExpectedOrdersRuleViolated (msg : String) : Error
  | Msg (msg : String) : Error
deriving DecidableEq, Repr

/-- `Error::get_msg`, modelled from usage: returns the carried
message. -/
def Error.get_msg : Error → String
  | .ExpectedOrdersRuleViolated msg => msg
  | .Msg msg => msg

namespace RulePeriod

/-- `RulePeriod::get_duration`
(src/futures/utils/expected_order_requests/rule_period.rs), in seconds
(`Duration::from_secs`); the `u64` multiplications wrap modulo
`2 ^ 64`. -/
def get_duration : RulePeriod → Nat
  | .Seconds seconds => seconds % U64
  | .Minutes minutes => minutes * 60 % U64
  | .Hours hours => hours * 60 * 60 % U64
  | .Days days => days * 24 * 60 * 60 % U64
  | .Weeks weeks => weeks * 7 * 24 * 60 * 60 % U64

/-- `RulePeriod::get_validated_duration`: rejects a period shorter than
`MIN_RULE_PERIOD_DURATION_SECS` seconds. -/
def get_validated_duration (p : RulePeriod) : Except Error Nat :=
  let duration_secs := p.get_duration
  if duration_secs < MIN_RULE_PERIOD_DURATION_SECS then
    .error (.ExpectedOrdersRuleViolated
      s!"Rule period duration must be at least {MIN_RULE_PERIOD_DURATION_SECS} seconds. Duration: {duration_secs}")
  else
    .ok duration_secs

end RulePeriod

/-- `ExpectedOrderRequestsRuleSizeParams`
(src/futures/utils/expected_order_requests/rule_size_params.rs). -/
inductive ExpectedOrderRequestsRuleSizeParams where
  | Min (v : Decimal) : ExpectedOrderRequestsRuleSizeParams
  | Max (v : Decimal) : ExpectedOrderRequestsRuleSizeParams
  | MinMax (min max : Decimal) : ExpectedOrderRequestsRuleSizeParams
deriving DecidableEq, Repr

/-- Modelled from the spec: `rule_payload.rs`
(`ExpectedOrderRequestsRulePayload`) is not under src/. Per spec §3 a
rule payload carries a size-bounds constraint and a `period`; the field
`period` is the one accessed by `ExpectedOrderRequestsRule::get_duration`
in src/futures/utils/expected_order_requests/rule.rs. The payload's
`matches_order` and `validate` methods are implementation-defined and
are therefore passed as explicit function parameters to the validation
entry point below. -/
structure ExpectedOrderRequestsRulePayload where
  size_params : ExpectedOrderRequestsRuleSizeParams
  period : RulePeriod
deriving DecidableEq, Repr

/-- `ExpectedOrderRequestsRule`
(src/futures/utils/expected_order_requests/rule.rs): tagged Global /
PerGrid variants over a shared payload. -/
inductive ExpectedOrderRequestsRule where
  | Global (payload : ExpectedOrderRequestsRulePayload) : ExpectedOrderRequestsRule
  | PerGrid (payload : ExpectedOrderRequestsRulePayload) : ExpectedOrderRequestsRule
deriving DecidableEq, Repr

/-- Whether a rule is the `Global` variant
(`matches!(rule, ExpectedOrderRequestsRule::Global(_))`). -/
def ExpectedOrderRequestsRule.isGlobal : ExpectedOrderRequestsRule → Bool
  | .Global _ => true
  | .PerGrid _ => false

/-- `ExpectedOrderRequestsRule::get_duration`
(src/futures/utils/expected_order_requests/rule.rs): both variants
return `payload.period.get_validated_duration()`. -/
def ExpectedOrderRequestsRule.get_duration :
    ExpectedOrderRequestsRule → Except Error Nat
  | .Global global_rule => global_rule.period.get_validated_duration
  | .PerGrid per_grid_rule => per_grid_rule.period.get_validated_duration

/-- The duration-collection loop of `validate_rule_set_durations`
(src/futures/utils/expected_order_requests/rules_map.rs, lines 16-24):
each rule's validated duration is fetched, the first failure aborting
with the `Failed to get duration` error. -/
def get_rule_durations (symbol : String) :
    List ExpectedOrderRequestsRule → Except Error (List Nat)
  | [] => .ok []
  | rule :: rest =>
    match rule.get_duration with
    | .error error =>
      let msg := error.get_msg
      let ruleStr := reprStr rule
      .error (.ExpectedOrdersRuleViolated
        s!"Failed to get duration for {symbol} rule: {msg}. Rule: {ruleStr}")
    | .ok duration =>
      match get_rule_durations symbol rest with
      | .error e => .error e
      | .ok durations => .ok (duration :: durations)

/-- The coverage checks of `validate_rule_set_durations`
(src/futures/utils/expected_order_requests/rules_map.rs, lines 26-47)
over the collected duration list: require one duration covering at
least 52 weeks and one lying between 1 and 48 hours (integer
division). -/
def check_durations_coverage (symbol : String) (durations : List Nat) :
    Except Error Unit :=
  let min_hours : Nat := 1
  let max_hours : Nat := 48
  let found_at_least_52_weeks :=
    durations.any fun secs => 52 ≤ secs / 60 / 60 / 24 / 7
  let found_hours_until_two_days :=
    durations.any fun secs =>
      min_hours ≤ secs / 60 / 60 ∧ secs / 60 / 60 ≤ max_hours
  if !found_at_least_52_weeks then
    .error (.ExpectedOrdersRuleViolated
      s!"No rule found to cover at least 52 weeks for symbol {symbol}")
  else if !found_hours_until_two_days then
    .error (.ExpectedOrdersRuleViolated
      s!"No rule found to cover somewhere between {min_hours} and {max_hours} hours for symbol {symbol}")
  else
    .ok ()

/-- `validate_rule_set_durations`
(src/futures/utils/expected_order_requests/rules_map.rs): collect all
validated durations, then run the coverage checks. -/
def validate_rule_set_durations (symbol : String)
    (rules : List ExpectedOrderRequestsRule) : Except Error Unit :=
  match get_rule_durations symbol rules with
  | .error e => .error e
  | .ok durations => check_durations_coverage symbol durations

/-- `validate_rule_set`
(src/futures/utils/expected_order_requests/rules_map.rs): at least one
Global rule must be present, then the duration coverage is checked. -/
def validate_rule_set (symbol : String)
    (rules : List ExpectedOrderRequestsRule) : Except Error Unit :=
  let found_global_rules := rules.any fun rule => rule.isGlobal
  if !found_global_rules then
    .error (.ExpectedOrdersRuleViolated
      s!"No global expected order requests rules found for symbol {symbol}")
  else
    validate_rule_set_durations symbol rules

/-- The per-symbol rule map `EXPECTED_ORDER_REQUESTS_RULES`
(src/futures/utils/expected_order_requests/rules_map.rs), modelled as a
partial map from symbol to its rule set (the `HashSet` modelled as a
duplicate-free list). -/
abbrev RulesMap : Type := String → Option (List ExpectedOrderRequestsRule)

/-- The per-matched-rule validation loop of `validate_order_request`
(src/futures/utils/expected_order_requests/rules_map.rs, lines 72-80):
each matched rule is validated, the first failure aborting with the
`violates rule` error; on success the list of validated rules is
returned. `validateF` stands for `ExpectedOrderRequestsRule::validate`,
whose payload implementation (rule_payload.rs) is not under src/. -/
def validate_matching_rules
    (validateF : ExpectedOrderRequestsRule → TopNEntry OrderTrackingItem →
      Except Error Unit)
    (symbol : String) (tracking_item_wrapper : TopNEntry OrderTrackingItem) :
    List ExpectedOrderRequestsRule → Except Error (List ExpectedOrderRequestsRule)
  | [] => .ok []
  | rule :: rest =>
    match validateF rule tracking_item_wrapper with
    | .error error =>
      let error_msg := error.get_msg
      let orderStr := reprStr tracking_item_wrapper
      let ruleStr := reprStr rule
      .error (.ExpectedOrdersRuleViolated
        s!"{symbol} order request violates rule. Error: {error_msg}. Order: {orderStr}, Rule: {ruleStr}")
    | .ok _ =>
      match validate_matching_rules validateF symbol tracking_item_wrapper rest with
      | .error e => .error e
      | .ok validated_rules => .ok (rule :: validated_rules)

/-- `validate_order_request`
(src/futures/utils/expected_order_requests/rules_map.rs): look up the
symbol's rule set (failing if absent), run the structural rule-set
check, select the rules matching the order, fail if none match, then
validate every matched rule. `matchesF` and `validateF` stand for
`ExpectedOrderRequestsRule::matches_order` and `::validate`, whose
payload implementations (rule_payload.rs) are not under src/. -/
def validate_order_request
    (matchesF : ExpectedOrderRequestsRule → TopNEntry OrderTrackingItem → Bool)
    (validateF : ExpectedOrderRequestsRule → TopNEntry OrderTrackingItem →
      Except Error Unit)
    (rulesMap : RulesMap) (symbol : String)
    (tracking_item_wrapper : TopNEntry OrderTrackingItem) :
    Except Error (List ExpectedOrderRequestsRule) :=
  match rulesMap symbol with
  | none =>
    .error (.ExpectedOrdersRuleViolated
      s!"No expected order requests rules found for symbol {symbol}")
  | some rules =>
    match validate_rule_set symbol rules with
    | .error e => .error e
    | .ok _ =>
      let matching_rules := rules.filter fun rule =>
        matchesF rule tracking_item_wrapper
      if matching_rules.isEmpty then
        let orderStr := reprStr tracking_item_wrapper
        .error (.ExpectedOrdersRuleViolated
          s!"No matching expected order requests rules found for order request {orderStr}")
      else
        validate_matching_rules validateF symbol tracking_item_wrapper
          matching_rules

/-- `HashSet::insert` on the list model of a rule set: a no-op when the
rule is already present. -/
def hashSetInsert (rule : ExpectedOrderRequestsRule)
    (s : List ExpectedOrderRequestsRule) : List ExpectedOrderRequestsRule :=
  if rule ∈ s then s else s ++ [rule]

/-- The dynamic-rule loop of `set_rules_for_symbol`
(src/futures/utils/expected_order_requests/rules_map.rs, lines
110-115): each submitted rule is inserted into the new set, aborting if
any submitted rule is a Global variant. -/
def insert_dynamic_rules (new_set : List ExpectedOrderRequestsRule) :
    List ExpectedOrderRequestsRule →
    Except Error (List ExpectedOrderRequestsRule)
  | [] => .ok new_set
  | rule :: rest =>
    match rule with
    | .Global _ =>
      .error (.Msg
        "Global rules should not be submitted into this function, they should be hardcoded")
    | .PerGrid _ => insert_dynamic_rules (hashSetInsert rule new_set) rest

/-- `set_rules_for_symbol`
(src/futures/utils/expected_order_requests/rules_map.rs): replace the
symbol's dynamic (PerGrid) rules with `rules`, keeping the existing
Global rules. The returned map reflects that `.entry(symbol).or_default()`
inserts an empty set for an unknown symbol even on the failure paths
reached after that point. -/
def set_rules_for_symbol (m : RulesMap) (symbol : String)
    (rules : List ExpectedOrderRequestsRule) :
    Except Error Unit × RulesMap :=
  if rules.isEmpty then
    (.error (.Msg s!"No rules provided for symbol {symbol}"), m)
  else
    let existing_rules := (m symbol).getD []
    let m1 : RulesMap := fun s => if s = symbol then some existing_rules else m s
    if existing_rules.isEmpty then
      (.error (.Msg
        s!"No rules found for symbol {symbol}. Should be hardcoded before calling this function"), m1)
    else
      let global_rules := existing_rules.filter fun rule => rule.isGlobal
      if global_rules.isEmpty then
        (.error (.Msg
          s!"No global rules found for symbol {symbol}. Should be hardcoded and set into some static before calling this function"), m1)
      else
        let seeded := global_rules.foldl (fun s rule => hashSetInsert rule s) []
        match insert_dynamic_rules seeded rules with
        | .error e => (.error e, m1)
        | .ok new_set =>
          if new_set.isEmpty then
            (.error (.Msg
              s!"Logic bug, new set of rules is empty for symbol {symbol}"), m1)
          else
            (.ok (), fun s => if s = symbol then some new_set else m s)

/-- `TOP_N_ORDER_TRACKING_CAPACITY`
(src/futures/utils/order_tracker.rs). -/
def TOP_N_ORDER_TRACKING_CAPACITY : Nat := 3000

/-- `get_file_path` (src/futures/utils/order_tracker.rs): the
deterministic per-symbol snapshot file name. -/
def get_file_path (order_symbol : String) : String :=
  s!"order_tracker_{order_symbol}.json"

/-- The fields of `OrderRequest` (src/futures/account.rs) read by the
order tracker: `symbol`, `side`, `quantity`, `price`. The remaining
request fields (order type, time in force, stop price, ...) are never
consulted by the guard subsystem and are omitted from the model. -/
structure OrderRequest where
  symbol : String
  side : OrderSide
  quantity : Option Decimal
  price : Option Decimal
deriving DecidableEq, Repr

/-- `load_top_n_from_file` (src/futures/utils/order_tracker.rs) on an
existing file: `contents` is the outcome of reading and deserializing
the file (`Except.error` when either `fs::read_to_string` or
`serde_json::from_str` fails, carrying the underlying error text); a
success wraps the decoded set with the caller-supplied capacity. -/
def load_top_n_from_file
    (contents : Except String (List (TopNEntry OrderTrackingItem)))
    (capacity : Nat) : Except Error (TopN OrderTrackingItem) :=
  match contents with
  | .error error =>
    .error (.Msg s!"Failed to read or deserialize top n from file: {error}")
  | .ok set => .ok (load_top_n set capacity)

/-- `save_top_n_to_file` (src/futures/utils/order_tracker.rs):
serialization of an in-memory `TopN` cannot fail in the model, so the
outcome is whether `fs::write` succeeds. -/
def save_top_n_to_file (write_ok : Bool) : Except Error Unit :=
  if write_ok then .ok ()
  else .error (.Msg "Failed to save top n to file: write error")

/-- The `TopNEntry` built by `add_order_tracking_item`
(src/futures/utils/order_tracker.rs, lines 39-54): the tracking record
(size, price, side, and the `{uuid}-{timestamp}` id) wrapped with the
nanosecond timestamp. -/
def tracked_entry (quantity price : Decimal) (side : OrderSide)
    (timestamp_nanos : Nat) (uuid : String) : TopNEntry OrderTrackingItem :=
  { timestamp := timestamp_nanos
    item :=
      { size := quantity
        price := price
        side := side
        id := s!"{uuid}-{timestamp_nanos}" } }

/-- `add_order_tracking_item` (src/futures/utils/order_tracker.rs).
Explicit-state model of one call for one symbol: `timestamp_nanos` is
the sampled clock (assumed available), `uuid` the generated token,
`mem` the symbol's slot of `SYMBOL_ORDER_TRACKING` (`none` when the
symbol has never been seen; `.entry(..).or_default()` then creates an
empty capacity-3000 history), `disk` the snapshot file state (`none`
when the file does not exist, otherwise the read/deserialize outcome)
and `write_ok` whether the final `fs::write` succeeds. Returns the
call's result together with the symbol's slot after the call. -/
def add_order_tracking_item (order_request : OrderRequest)
    (timestamp_nanos : Nat) (uuid : String)
    (mem : Option (TopN OrderTrackingItem))
    (disk : Option (Except String (List (TopNEntry OrderTrackingItem))))
    (write_ok : Bool) :
    Except Error (TopNEntry OrderTrackingItem) ×
      Option (TopN OrderTrackingItem) :=
  let symbol := order_request.symbol
  let file_path := get_file_path symbol
  match order_request.quantity with
  | none => (.error (.Msg "Quantity is required to add order tracking item"), mem)
  | some quantity =>
    match order_request.price with
    | none => (.error (.Msg "Price is required to add order tracking item"), mem)
    | some price =>
      let new_item_entry :=
        tracked_entry quantity price order_request.side timestamp_nanos uuid
      let top_n_ref := mem.getD (TopN.new TOP_N_ORDER_TRACKING_CAPACITY none)
      let warm : Except Error (TopN OrderTrackingItem) :=
        if top_n_ref.is_empty && disk.isSome then
          match disk with
          | none => .ok top_n_ref
          | some contents =>
            match load_top_n_from_file contents TOP_N_ORDER_TRACKING_CAPACITY with
            | .ok loaded_top_n => .ok loaded_top_n
            | .error error =>
              let errStr := error.get_msg
              let entryStr := reprStr new_item_entry
              .error (.Msg
                s!"Failed to load order tracker file from {file_path} when adding item {symbol} {entryStr}: {errStr}")
        else .ok top_n_ref
      match warm with
      | .error e => (.error e, some top_n_ref)
      | .ok t =>
        let t2 := t.insert new_item_entry
        match save_top_n_to_file write_ok with
        | .error error =>
          let errStr := error.get_msg
          let entryStr := reprStr new_item_entry
          (.error (.Msg
            s!"Failed to write TopN set to file when adding item {symbol} {entryStr}: {errStr}"),
            some t2)
        | .ok _ => (.ok new_item_entry, some t2)

/-- The raw duration, in seconds, of a rule's period (the period the
spec's coverage conditions speak about). -/
def ExpectedOrderRequestsRule.period_secs : ExpectedOrderRequestsRule → Nat
  | .Global payload => payload.period.get_duration
  | .PerGrid payload => payload.period.get_duration


theorem get_validated_duration_ok {p : RulePeriod} {d : Nat}
    (h : p.get_validated_duration = .ok d) : d = p.get_duration := by
  by_cases hc : p.get_duration < MIN_RULE_PERIOD_DURATION_SECS
  · simp [RulePeriod.get_validated_duration, hc] at h
  · simp [RulePeriod.get_validated_duration, hc] at h
    exact h.symm

theorem get_duration_ok_eq_period_secs {rule : ExpectedOrderRequestsRule}
    {d : Nat} (h : rule.get_duration = .ok d) : d = rule.period_secs := by
  cases rule with
  | Global payload => exact get_validated_duration_ok h
  | PerGrid payload => exact get_validated_duration_ok h

theorem get_rule_durations_cons_error {symbol : String}
    {rule : ExpectedOrderRequestsRule} {rest : List ExpectedOrderRequestsRule}
    {e : Error} (hd : rule.get_duration = .error e) :
    get_rule_durations symbol (rule :: rest) =
      .error (.ExpectedOrdersRuleViolated
        s!"Failed to get duration for {symbol} rule: {e.get_msg}. Rule: {reprStr rule}") := by
  simp only [get_rule_durations, hd]

theorem get_rule_durations_ok_or_eorv (symbol : String)
    (rules : List ExpectedOrderRequestsRule) :
    (∃ m, get_rule_durations symbol rules =
      .error (.ExpectedOrdersRuleViolated m)) ∨
    (∃ ds, get_rule_durations symbol rules = .ok ds ∧
      ∀ d ∈ ds, ∃ r ∈ rules, d = r.period_secs) := by
  induction rules with
  | nil =>
    right
    exact ⟨[], rfl, by simp⟩
  | cons rule rest ih =>
    cases hd : rule.get_duration with
    | error e =>
      left
      exact ⟨_, get_rule_durations_cons_error hd⟩
    | ok d =>
      rcases ih with ⟨m, hm⟩ | ⟨ds, hds, hall⟩
      · left
        refine ⟨m, ?_⟩
        simp only [get_rule_durations, hd, hm]
      · right
        refine ⟨d :: ds, by simp only [get_rule_durations, hd, hds], ?_⟩
        intro x hx
        rcases List.mem_cons.mp hx with rfl | hx
        · exact ⟨rule, List.mem_cons_self rule rest,
            get_duration_ok_eq_period_secs hd⟩
        · obtain ⟨r, hr, hrx⟩ := hall x hx
          exact ⟨r, List.mem_cons_of_mem rule hr, hrx⟩

theorem check_durations_coverage_no52 {symbol : String} {ds : List Nat}
    (h52 : (ds.any fun secs => 52 ≤ secs / 60 / 60 / 24 / 7) = false) :
    check_durations_coverage symbol ds =
      .error (.ExpectedOrdersRuleViolated
        s!"No rule found to cover at least 52 weeks for symbol {symbol}") := by
  simp [check_durations_coverage, h52]

theorem check_durations_coverage_nohours {symbol : String} {ds : List Nat}
    (h52 : (ds.any fun secs => 52 ≤ secs / 60 / 60 / 24 / 7) = true)
    (hhrs : (ds.any fun secs =>
      1 ≤ secs / 60 / 60 ∧ secs / 60 / 60 ≤ 48) = false) :
    check_durations_coverage symbol ds =
      .error (.ExpectedOrdersRuleViolated
        s!"No rule found to cover somewhere between {(1 : Nat)} and {(48 : Nat)} hours for symbol {symbol}") := by
  simp [check_durations_coverage, h52, hhrs]
  intro x hx h1
  by_contra hle
  have : (ds.any fun secs =>
      1 ≤ secs / 60 / 60 ∧ secs / 60 / 60 ≤ 48) = true :=
    List.any_eq_true.mpr
      ⟨x, hx, decide_eq_true ⟨h1, Nat.le_of_not_lt hle⟩⟩
  rw [this] at hhrs
  cases hhrs

theorem validate_rule_set_durations_fails_of_uncovered (symbol : String)
    (rules : List ExpectedOrderRequestsRule)
    (hbad : (¬ ∃ r ∈ rules, 52 ≤ r.period_secs / 60 / 60 / 24 / 7) ∨
      (¬ ∃ r ∈ rules, 1 ≤ r.period_secs / 60 / 60 ∧
        r.period_secs / 60 / 60 ≤ 48)) :
    ∃ m, validate_rule_set_durations symbol rules =
      .error (.ExpectedOrdersRuleViolated m) := by
  rcases get_rule_durations_ok_or_eorv symbol rules with ⟨m, hm⟩ | ⟨ds, hds, hall⟩
  · refine ⟨m, ?_⟩
    simp only [validate_rule_set_durations, hm]
  · have hstep : validate_rule_set_durations symbol rules =
        check_durations_coverage symbol ds := by
      simp only [validate_rule_set_durations, hds]
    rcases hbad with hno52 | hnohours
    · have h52 : (ds.any fun secs => 52 ≤ secs / 60 / 60 / 24 / 7) = false := by
        rcases Bool.eq_false_or_eq_true
          (ds.any fun secs => 52 ≤ secs / 60 / 60 / 24 / 7) with h | h
        · exfalso
          obtain ⟨d, hdm, hdp⟩ := List.any_eq_true.mp h
          obtain ⟨r, hr, rfl⟩ := hall d hdm
          exact hno52 ⟨r, hr, of_decide_eq_true hdp⟩
        · exact h
      exact ⟨_, hstep.trans (check_durations_coverage_no52 h52)⟩
    · have hhrs : (ds.any fun secs =>
          1 ≤ secs / 60 / 60 ∧ secs / 60 / 60 ≤ 48) = false := by
        rcases Bool.eq_false_or_eq_true (ds.any fun secs =>
          1 ≤ secs / 60 / 60 ∧ secs / 60 / 60 ≤ 48) with h | h
        · exfalso
          obtain ⟨d, hdm, hdp⟩ := List.any_eq_true.mp h
          obtain ⟨r, hr, rfl⟩ := hall d hdm
          exact hnohours ⟨r, hr, of_decide_eq_true hdp⟩
        · exact h
      rcases Bool.eq_false_or_eq_true
        (ds.any fun secs => 52 ≤ secs / 60 / 60 / 24 / 7) with h52 | h52
      · exact ⟨_, hstep.trans (check_durations_coverage_nohours h52 hhrs)⟩
      · exact ⟨_, hstep.trans (check_durations_coverage_no52 h52)⟩

theorem validate_rule_set_noglobal {symbol : String}
    {rules : List ExpectedOrderRequestsRule}
    (hglob : (rules.any fun rule => rule.isGlobal) = false) :
    validate_rule_set symbol rules =
      .error (.ExpectedOrdersRuleViolated
        s!"No global expected order requests rules found for symbol {symbol}") := by
  simp [validate_rule_set, hglob]

theorem validate_rule_set_global {symbol : String}
    {rules : List ExpectedOrderRequestsRule}
    (hglob : (rules.any fun rule => rule.isGlobal) = true) :
    validate_rule_set symbol rules =
      validate_rule_set_durations symbol rules := by
  simp [validate_rule_set, hglob]

theorem validate_rule_set_fails_of_structural (symbol : String)
    (rules : List ExpectedOrderRequestsRule)
    (hbad : (¬ ∃ r ∈ rules, r.isGlobal = true) ∨
      (¬ ∃ r ∈ rules, 52 ≤ r.period_secs / 60 / 60 / 24 / 7) ∨
      (¬ ∃ r ∈ rules, 1 ≤ r.period_secs / 60 / 60 ∧
        r.period_secs / 60 / 60 ≤ 48)) :
    ∃ m, validate_rule_set symbol rules =
      .error (.ExpectedOrdersRuleViolated m) := by
  rcases Bool.eq_false_or_eq_true (rules.any fun rule => rule.isGlobal)
    with hglob | hglob
  swap
  · exact ⟨_, validate_rule_set_noglobal hglob⟩
  · have hbad' : (¬ ∃ r ∈ rules, 52 ≤ r.period_secs / 60 / 60 / 24 / 7) ∨
        (¬ ∃ r ∈ rules, 1 ≤ r.period_secs / 60 / 60 ∧
          r.period_secs / 60 / 60 ≤ 48) := by
      rcases hbad with hng | hrest
      · exfalso
        obtain ⟨r, hr, hrg⟩ := List.any_eq_true.mp hglob
        exact hng ⟨r, hr, hrg⟩
      · exact hrest
    obtain ⟨m, hm⟩ :=
      validate_rule_set_durations_fails_of_uncovered symbol rules hbad'
    exact ⟨m, (validate_rule_set_global hglob).trans hm⟩

/-- C2: for any symbol whose configured rule set lacks a Global rule,
or lacks a rule whose period reaches 52 weeks, or lacks a rule whose
period lies within 1 to 48 hours, `validate_order_request` fails with
the structural-invalidity error (`ExpectedOrdersRuleViolated`), and it
does so identically for every possible behaviour of the rule matching
and per-rule validation functions — the structural check runs on every
validation call before rule matching is ever consulted. -/
theorem validate_order_request_structural_check_first
    (rulesMap : RulesMap) (symbol : String)
    (entry : TopNEntry OrderTrackingItem)
    (rules : List ExpectedOrderRequestsRule)
    (hmap : rulesMap symbol = some rules)
    (hbad : (¬ ∃ r ∈ rules, r.isGlobal = true) ∨
      (¬ ∃ r ∈ rules, 52 ≤ r.period_secs / 60 / 60 / 24 / 7) ∨
      (¬ ∃ r ∈ rules, 1 ≤ r.period_secs / 60 / 60 ∧
        r.period_secs / 60 / 60 ≤ 48)) :
    ∃ msg, ∀ matchesF validateF,
      validate_order_request matchesF validateF rulesMap symbol entry =
        .error (.ExpectedOrdersRuleViolated msg) := by
  obtain ⟨m, hm⟩ := validate_rule_set_fails_of_structural symbol rules hbad
  refine ⟨m, fun matchesF validateF => ?_⟩
  simp only [validate_order_request, hmap, hm]

/-- Witness for `validate_order_request_structural_check_first`: a rule
set holding a single PerGrid rule (no Global rule) always fails
validation, whatever the matching and validation functions do. -/
theorem validate_order_request_structural_check_first_witness :
    ∃ msg, ∀ matchesF validateF,
      validate_order_request matchesF validateF
        (fun _ => some [.PerGrid ⟨.Min 0, .Hours 1⟩]) "X"
        ⟨0, ⟨1, 1, .Buy, "i"⟩⟩ =
        .error (.ExpectedOrdersRuleViolated msg) :=
  validate_order_request_structural_check_first
    (fun _ => some [.PerGrid ⟨.Min 0, .Hours 1⟩]) "X"
    ⟨0, ⟨1, 1, .Buy, "i"⟩⟩ [.PerGrid ⟨.Min 0, .Hours 1⟩] rfl
    (Or.inl (by decide))

theorem mem_hashSetInsert (rule x : ExpectedOrderRequestsRule)
    (s : List ExpectedOrderRequestsRule) :
    x ∈ hashSetInsert rule s ↔ x ∈ s ∨ x = rule := by
  by_cases hr : rule ∈ s
  · simp only [hashSetInsert, if_pos hr]
    constructor
    · exact Or.inl
    · rintro (h | rfl)
      · exact h
      · exact hr
  · simp [hashSetInsert, if_neg hr]

theorem mem_foldl_hashSetInsert (l : List ExpectedOrderRequestsRule) :
    ∀ (s : List ExpectedOrderRequestsRule) (x : ExpectedOrderRequestsRule),
    x ∈ l.foldl (fun s rule => hashSetInsert rule s) s ↔ x ∈ s ∨ x ∈ l := by
  induction l with
  | nil =>
    intro s x
    simp
  | cons rule rest ih =>
    intro s x
    simp only [List.foldl_cons]
    rw [ih (hashSetInsert rule s) x, mem_hashSetInsert]
    simp only [List.mem_cons]
    tauto

theorem insert_dynamic_rules_ok (rules : List ExpectedOrderRequestsRule)
    (hng : ∀ r ∈ rules, r.isGlobal = false) :
    ∀ new_set, ∃ res, insert_dynamic_rules new_set rules = .ok res ∧
      ∀ x, x ∈ res ↔ x ∈ new_set ∨ x ∈ rules := by
  induction rules with
  | nil =>
    intro new_set
    exact ⟨new_set, rfl, by simp [insert_dynamic_rules]⟩
  | cons rule rest ih =>
    intro new_set
    have hrule : rule.isGlobal = false := hng rule (List.mem_cons_self rule rest)
    have hng' : ∀ r ∈ rest, r.isGlobal = false :=
      fun r hr => hng r (List.mem_cons_of_mem rule hr)
    obtain ⟨res, hres, hiff⟩ := ih hng' (hashSetInsert rule new_set)
    cases rule with
    | Global payload => simp [ExpectedOrderRequestsRule.isGlobal] at hrule
    | PerGrid payload =>
      refine ⟨res, by simp only [insert_dynamic_rules, hres], ?_⟩
      intro x
      rw [hiff x, mem_hashSetInsert]
      simp only [List.mem_cons]
      tauto

theorem insert_dynamic_rules_global_err
    (rules : List ExpectedOrderRequestsRule)
    (hg : ∃ r ∈ rules, r.isGlobal = true) :
    ∀ new_set, ∃ m, insert_dynamic_rules new_set rules = .error (.Msg m) := by
  induction rules with
  | nil =>
    obtain ⟨r, hr, _⟩ := hg
    exact absurd hr (List.not_mem_nil r)
  | cons rule rest ih =>
    intro new_set
    cases rule with
    | Global payload => exact ⟨_, rfl⟩
    | PerGrid payload =>
      have hg' : ∃ r ∈ rest, r.isGlobal = true := by
        obtain ⟨r, hr, hrg⟩ := hg
        rcases List.mem_cons.mp hr with rfl | hr
        · simp [ExpectedOrderRequestsRule.isGlobal] at hrg
        · exact ⟨r, hr, hrg⟩
      obtain ⟨m, hm⟩ := ih hg' (hashSetInsert (.PerGrid payload) new_set)
      exact ⟨m, by simp only [insert_dynamic_rules, hm]⟩

theorem exists_error_of_not_ok {α : Type} {x : Except Error α}
    (h : ∀ v, x ≠ .ok v) : ∃ e, x = .error e := by
  cases x with
  | error e => exact ⟨e, rfl⟩
  | ok v => exact absurd rfl (h v)

/-- C3: `set_rules_for_symbol` fails when the submitted rule list is
empty, when no prior rule entry exists for the symbol, when the
existing set contains no Global rule, or when any submitted rule is a
Global variant; on success the symbol's resulting rule set holds
exactly the previously existing Global rules together with the
submitted rules (and no other symbol's entry changes), so the Global
subset is preserved unchanged and no Global rule is introduced. -/
theorem set_rules_for_symbol_preserves_globals
    (m : RulesMap) (symbol : String)
    (rules : List ExpectedOrderRequestsRule) :
    (rules = [] → ∃ e, (set_rules_for_symbol m symbol rules).1 = .error e) ∧
    (m symbol = none → ∃ e, (set_rules_for_symbol m symbol rules).1 = .error e) ∧
    (∀ ex, m symbol = some ex → (∀ r ∈ ex, r.isGlobal = false) →
      ∃ e, (set_rules_for_symbol m symbol rules).1 = .error e) ∧
    ((∃ r ∈ rules, r.isGlobal = true) →
      ∃ e, (set_rules_for_symbol m symbol rules).1 = .error e) ∧
    (∀ ex, m symbol = some ex →
      (∃ r ∈ ex, r.isGlobal = true) →
      (∀ r ∈ rules, r.isGlobal = false) → rules ≠ [] →
      ∃ new_set,
        (set_rules_for_symbol m symbol rules).1 = .ok () ∧
        (set_rules_for_symbol m symbol rules).2 symbol = some new_set ∧
        (∀ s, s ≠ symbol → (set_rules_for_symbol m symbol rules).2 s = m s) ∧
        (∀ x, x ∈ new_set ↔ (x ∈ ex ∧ x.isGlobal = true) ∨ x ∈ rules) ∧
        (∀ g, g.isGlobal = true → (g ∈ new_set ↔ g ∈ ex))) := by
  refine ⟨?_, ?_, ?_, ?_, ?_⟩
  · rintro rfl
    refine exists_error_of_not_ok fun v hv => ?_
    simp [set_rules_for_symbol] at hv
  · intro hm
    rcases eq_or_ne rules [] with rfl | hrne
    · refine exists_error_of_not_ok fun v hv => ?_
      simp [set_rules_for_symbol] at hv
    · refine exists_error_of_not_ok fun v hv => ?_
      simp [set_rules_for_symbol, hrne, hm] at hv
  · intro ex hm hng
    rcases eq_or_ne rules [] with rfl | hrne
    · refine exists_error_of_not_ok fun v hv => ?_
      simp [set_rules_for_symbol] at hv
    rcases eq_or_ne ex ([] : List ExpectedOrderRequestsRule) with rfl | hexne
    · refine exists_error_of_not_ok fun v hv => ?_
      simp [set_rules_for_symbol, hrne, hm] at hv
    · refine exists_error_of_not_ok fun v hv => ?_
      simp [set_rules_for_symbol, hrne, hm, hexne] at hv
      rw [if_pos hng] at hv
      simp at hv
  · intro hg
    rcases eq_or_ne rules [] with rfl | hrne
    · refine exists_error_of_not_ok fun v hv => ?_
      simp [set_rules_for_symbol] at hv
    rcases eq_or_ne ((m symbol).getD []) ([] : List ExpectedOrderRequestsRule)
      with hex | hexne
    · refine exists_error_of_not_ok fun v hv => ?_
      simp [set_rules_for_symbol, hrne, hex] at hv
    by_cases hga : ∀ a ∈ (m symbol).getD ([] : List ExpectedOrderRequestsRule),
      a.isGlobal = false
    · refine exists_error_of_not_ok fun v hv => ?_
      simp [set_rules_for_symbol, hrne, hexne] at hv
      rw [if_pos hga] at hv
      simp at hv
    · obtain ⟨mm, hmm⟩ := insert_dynamic_rules_global_err rules hg
        ((((m symbol).getD []).filter (fun rule => rule.isGlobal)).foldl
          (fun s rule => hashSetInsert rule s) [])
      refine exists_error_of_not_ok fun v hv => ?_
      simp [set_rules_for_symbol, hrne, hexne, hga, hmm] at hv
  · intro ex hm hgex hng hrne
    obtain ⟨g, hgmem, hgg⟩ := hgex
    have hexne : ex ≠ [] := List.ne_nil_of_mem hgmem
    have hnga : ¬ ∀ a ∈ ex, a.isGlobal = false := by
      intro hall
      rw [hall g hgmem] at hgg
      cases hgg
    obtain ⟨res, hres, hiff⟩ := insert_dynamic_rules_ok rules hng
      ((ex.filter (fun rule => rule.isGlobal)).foldl
        (fun s rule => hashSetInsert rule s) [])
    have hresmem : ∀ x, x ∈ res ↔ (x ∈ ex ∧ x.isGlobal = true) ∨ x ∈ rules := by
      intro x
      rw [hiff x, mem_foldl_hashSetInsert]
      simp only [List.not_mem_nil, false_or, List.mem_filter]
    have hgres : g ∈ res := (hresmem g).mpr (Or.inl ⟨hgmem, hgg⟩)
    have hresne : res ≠ [] := List.ne_nil_of_mem hgres
    refine ⟨res, ?_, ?_, ?_, hresmem, ?_⟩
    · simp [set_rules_for_symbol, hrne, hm, hexne, hnga, hres, hresne]
    · simp [set_rules_for_symbol, hrne, hm, hexne, hnga, hres, hresne]
    · intro s hs
      simp [set_rules_for_symbol, hrne, hm, hexne, hnga, hres, hresne, hs]
    · intro x hxg
      rw [hresmem x]
      constructor
      · rintro (⟨hx, _⟩ | hx)
        · exact hx
        · rw [hng x hx] at hxg
          cases hxg
      · intro hx
        exact Or.inl ⟨hx, hxg⟩

/-- Witness for `set_rules_for_symbol_preserves_globals`: replacing the
dynamic rules of a symbol seeded with one Global rule by one PerGrid
rule succeeds and keeps the Global rule. -/
theorem set_rules_for_symbol_preserves_globals_witness :
    ∃ new_set,
      (set_rules_for_symbol (fun _ => some [.Global ⟨.Min 0, .Weeks 52⟩]) "X"
        [.PerGrid ⟨.Min 0, .Hours 1⟩]).1 = .ok () ∧
      (set_rules_for_symbol (fun _ => some [.Global ⟨.Min 0, .Weeks 52⟩]) "X"
        [.PerGrid ⟨.Min 0, .Hours 1⟩]).2 "X" = some new_set ∧
      (∀ s, s ≠ "X" →
        (set_rules_for_symbol (fun _ => some [.Global ⟨.Min 0, .Weeks 52⟩]) "X"
          [.PerGrid ⟨.Min 0, .Hours 1⟩]).2 s =
          (fun _ => some [.Global ⟨.Min 0, .Weeks 52⟩]) s) ∧
      (∀ x, x ∈ new_set ↔
        (x ∈ [ExpectedOrderRequestsRule.Global ⟨.Min 0, .Weeks 52⟩] ∧
          x.isGlobal = true) ∨
        x ∈ [ExpectedOrderRequestsRule.PerGrid ⟨.Min 0, .Hours 1⟩]) ∧
      (∀ g, g.isGlobal = true →
        (g ∈ new_set ↔
          g ∈ [ExpectedOrderRequestsRule.Global ⟨.Min 0, .Weeks 52⟩])) :=
  (set_rules_for_symbol_preserves_globals
    (fun _ => some [.Global ⟨.Min 0, .Weeks 52⟩]) "X"
    [.PerGrid ⟨.Min 0, .Hours 1⟩]).2.2.2.2
    [.Global ⟨.Min 0, .Weeks 52⟩] rfl
    ⟨.Global ⟨.Min 0, .Weeks 52⟩, by decide, by decide⟩
    (by decide) (by decide)

/-- Counterexample to C8: the validation pipeline does not report its
failure modes as distinct typed error kinds. Two different failure
modes — a symbol with no configured rule set at all, and a symbol whose
rule set lacks a Global rule — both return the same error variant
`Error.ExpectedOrdersRuleViolated`, differing only in message text. -/
theorem validate_error_kinds_counterexample :
    ∃ m1 m2 : String,
      validate_order_request (fun _ _ => true) (fun _ _ => .ok ())
        (fun _ => none) "X" ⟨0, ⟨1, 1, .Buy, "i"⟩⟩ =
        .error (.ExpectedOrdersRuleViolated m1) ∧
      validate_order_request (fun _ _ => true) (fun _ _ => .ok ())
        (fun _ => some [.PerGrid ⟨.Min 0, .Hours 1⟩]) "X"
        ⟨0, ⟨1, 1, .Buy, "i"⟩⟩ =
        .error (.ExpectedOrdersRuleViolated m2) ∧
      m1 ≠ m2 :=
  ⟨_, _, rfl, rfl, by decide⟩

/-- C8 (amended): all four failure modes of `validate_order_request` —
no rule set configured for the symbol, structural invalidity of the
rule set, no rule matching the order, and a matched rule failing
validation — are reported through the single error variant
`Error.ExpectedOrdersRuleViolated`, distinguished by their message
text, not by a typed error kind. -/
theorem validate_error_single_kind_amended :
    ∃ m1 m2 m3 m4 : String,
      validate_order_request (fun _ _ => true) (fun _ _ => .ok ())
        (fun _ => none) "X" ⟨0, ⟨1, 1, .Buy, "i"⟩⟩ =
        .error (.ExpectedOrdersRuleViolated m1) ∧
      validate_order_request (fun _ _ => true) (fun _ _ => .ok ())
        (fun _ => some [.PerGrid ⟨.Min 0, .Hours 1⟩]) "X"
        ⟨0, ⟨1, 1, .Buy, "i"⟩⟩ =
        .error (.ExpectedOrdersRuleViolated m2) ∧
      validate_order_request (fun _ _ => false) (fun _ _ => .ok ())
        (fun _ => some [.Global ⟨.Min 0, .Weeks 52⟩, .Global ⟨.Min 0, .Hours 1⟩])
        "X" ⟨0, ⟨1, 1, .Buy, "i"⟩⟩ =
        .error (.ExpectedOrdersRuleViolated m3) ∧
      validate_order_request (fun _ _ => true) (fun _ _ => .error (.Msg "bad"))
        (fun _ => some [.Global ⟨.Min 0, .Weeks 52⟩, .Global ⟨.Min 0, .Hours 1⟩])
        "X" ⟨0, ⟨1, 1, .Buy, "i"⟩⟩ =
        .error (.ExpectedOrdersRuleViolated m4) ∧
      m1 ≠ m2 :=
  ⟨_, _, _, _, rfl, rfl, rfl, rfl, by decide⟩

/-- C7: `add_order_tracking_item` fails with the missing-field error —
without touching the symbol's in-memory history — whenever the order
request lacks a quantity or lacks a price; when both are present (here
on the fresh-start path: no snapshot file, successful write) it
constructs the tracking record and returns the inserted timestamped
entry, which is also inserted into the in-memory history. -/
theorem add_order_tracking_requires_quantity_and_price
    (req : OrderRequest) (ts : Nat) (uuid : String)
    (mem : Option (TopN OrderTrackingItem))
    (disk : Option (Except String (List (TopNEntry OrderTrackingItem))))
    (w : Bool) :
    ((req.quantity = none ∨ req.price = none) →
      (add_order_tracking_item req ts uuid mem disk w).2 = mem ∧
      ((add_order_tracking_item req ts uuid mem disk w).1 =
        .error (.Msg "Quantity is required to add order tracking item") ∨
       (add_order_tracking_item req ts uuid mem disk w).1 =
        .error (.Msg "Price is required to add order tracking item"))) ∧
    (∀ q p, req.quantity = some q → req.price = some p → disk = none →
      w = true →
      add_order_tracking_item req ts uuid mem disk w =
        (.ok (tracked_entry q p req.side ts uuid),
         some ((mem.getD (TopN.new TOP_N_ORDER_TRACKING_CAPACITY none)).insert
           (tracked_entry q p req.side ts uuid)))) := by
  constructor
  · intro hmiss
    cases hq : req.quantity with
    | none =>
      refine ⟨?_, Or.inl ?_⟩
      · simp [add_order_tracking_item, hq]
      · simp [add_order_tracking_item, hq]
    | some q =>
      have hp : req.price = none := by
        rcases hmiss with h | h
        · rw [hq] at h
          cases h
        · exact h
      refine ⟨?_, Or.inr ?_⟩
      · simp [add_order_tracking_item, hq, hp]
      · simp [add_order_tracking_item, hq, hp]
  · intro q p hq hp hd hw
    subst hd
    subst hw
    simp [add_order_tracking_item, hq, hp, save_top_n_to_file]

/-- Witness for `add_order_tracking_requires_quantity_and_price`: an
order request without a quantity leaves the (empty) in-memory state
untouched and yields the quantity error. -/
theorem add_order_tracking_requires_quantity_and_price_witness :
    (add_order_tracking_item ⟨"X", .Buy, none, some 2⟩ 5 "u" none none
      true).2 = none ∧
    ((add_order_tracking_item ⟨"X", .Buy, none, some 2⟩ 5 "u" none none
        true).1 =
      .error (.Msg "Quantity is required to add order tracking item") ∨
     (add_order_tracking_item ⟨"X", .Buy, none, some 2⟩ 5 "u" none none
        true).1 =
      .error (.Msg "Price is required to add order tracking item")) :=
  (add_order_tracking_requires_quantity_and_price
    ⟨"X", .Buy, none, some 2⟩ 5 "u" none none true).1 (Or.inl rfl)

/-- C6: the warm-start behaviour of `add_order_tracking_item`. With the
in-memory history empty: a readable snapshot file is restored before
the new entry is inserted; an unreadable or undeserializable snapshot
file makes the whole call fail (the error is propagated, the restore
failure is not masked by starting from an empty history); and the
absence of the snapshot file is not an error — the call proceeds from
the empty history. -/
theorem add_order_tracking_warm_start
    (req : OrderRequest) (q p : Decimal) (ts : Nat) (uuid : String)
    (mem : Option (TopN OrderTrackingItem))
    (hq : req.quantity = some q) (hp : req.price = some p) :
    (∀ l, (mem.getD (TopN.new TOP_N_ORDER_TRACKING_CAPACITY none)).is_empty =
        true →
      add_order_tracking_item req ts uuid mem (some (.ok l)) true =
        (.ok (tracked_entry q p req.side ts uuid),
         some ((load_top_n l TOP_N_ORDER_TRACKING_CAPACITY).insert
           (tracked_entry q p req.side ts uuid)))) ∧
    (∀ emsg (w : Bool),
      (mem.getD (TopN.new TOP_N_ORDER_TRACKING_CAPACITY none)).is_empty =
        true →
      (∃ e, (add_order_tracking_item req ts uuid mem (some (.error emsg))
        w).1 = .error e) ∧
      (add_order_tracking_item req ts uuid mem (some (.error emsg)) w).2 =
        some (mem.getD (TopN.new TOP_N_ORDER_TRACKING_CAPACITY none))) ∧
    (add_order_tracking_item req ts uuid mem none true =
      (.ok (tracked_entry q p req.side ts uuid),
       some ((mem.getD (TopN.new TOP_N_ORDER_TRACKING_CAPACITY none)).insert
         (tracked_entry q p req.side ts uuid)))) := by
  refine ⟨?_, ?_, ?_⟩
  · intro l hie
    simp [add_order_tracking_item, hq, hp, hie, load_top_n_from_file,
      save_top_n_to_file]
  · intro emsg w hie
    constructor
    · refine exists_error_of_not_ok fun v hv => ?_
      simp [add_order_tracking_item, hq, hp, hie, load_top_n_from_file] at hv
    · simp [add_order_tracking_item, hq, hp, hie, load_top_n_from_file]
  · simp [add_order_tracking_item, hq, hp, save_top_n_to_file]

/-- Witness for `add_order_tracking_warm_start`: with an empty
in-memory slot and a corrupt snapshot file, the call fails and the slot
holds the empty default history. -/
theorem add_order_tracking_warm_start_witness :
    (∃ e, (add_order_tracking_item ⟨"X", .Buy, some 1, some 2⟩ 5 "u" none
      (some (.error "corrupt")) true).1 = .error e) ∧
    (add_order_tracking_item ⟨"X", .Buy, some 1, some 2⟩ 5 "u" none
      (some (.error "corrupt")) true).2 =
      some ((none : Option (TopN OrderTrackingItem)).getD
        (TopN.new TOP_N_ORDER_TRACKING_CAPACITY none)) :=
  (add_order_tracking_warm_start ⟨"X", .Buy, some 1, some 2⟩ 1 2 5 "u" none
    rfl rfl).2.1 "corrupt" true rfl

/-- C10: recording and persistence are not atomic — when the snapshot
write at the end of `add_order_tracking_item` fails, the call returns a
persistence error but the newly built entry has already been inserted
into the symbol's in-memory history and is not rolled back (and, below
capacity, the entry is indeed present in the retained set). -/
theorem add_order_tracking_persist_failure_keeps_insert
    (req : OrderRequest) (q p : Decimal) (ts : Nat) (uuid : String)
    (h : TopN OrderTrackingItem)
    (disk : Option (Except String (List (TopNEntry OrderTrackingItem))))
    (hq : req.quantity = some q) (hp : req.price = some p)
    (hne : h.set ≠ []) :
    (∃ e, (add_order_tracking_item req ts uuid (some h) disk false).1 =
      .error e) ∧
    (add_order_tracking_item req ts uuid (some h) disk false).2 =
      some (h.insert (tracked_entry q p req.side ts uuid)) ∧
    (tracked_entry q p req.side ts uuid ∉ h.set →
      h.set.length < h.capacity →
      tracked_entry q p req.side ts uuid ∈
        (h.insert (tracked_entry q p req.side ts uuid)).set) := by
  have hie : h.is_empty = false := by
    cases hset : h.set with
    | nil => exact absurd hset hne
    | cons a as => simp [TopN.is_empty, hset]
  refine ⟨?_, ?_, ?_⟩
  · refine exists_error_of_not_ok fun v hv => ?_
    simp [add_order_tracking_item, hq, hp, hie, save_top_n_to_file] at hv
  · simp [add_order_tracking_item, hq, hp, hie, save_top_n_to_file]
  · intro hnm hlt
    have hlen := length_insertEntry (tracked_entry q p req.side ts uuid) h.set
    have hover : ¬ (insertEntry (tracked_entry q p req.side ts uuid)
        h.set).length > h.capacity := by omega
    unfold TopN.insert
    rw [if_neg hnm, if_neg hover]
    exact (mem_insertEntry _ _ h.set).mpr (Or.inl rfl)

/-- Witness for `add_order_tracking_persist_failure_keeps_insert`: a
failed write returns an error while the one-entry history keeps the
newly inserted second entry. -/
theorem add_order_tracking_persist_failure_keeps_insert_witness :
    (∃ e, (add_order_tracking_item ⟨"X", .Buy, some 1, some 2⟩ 5 "u"
      (some ⟨[⟨1, ⟨1, 1, .Buy, "a"⟩⟩], 3000⟩) none false).1 = .error e) ∧
    (add_order_tracking_item ⟨"X", .Buy, some 1, some 2⟩ 5 "u"
      (some ⟨[⟨1, ⟨1, 1, .Buy, "a"⟩⟩], 3000⟩) none false).2 =
      some ((⟨[⟨1, ⟨1, 1, .Buy, "a"⟩⟩], 3000⟩ : TopN OrderTrackingItem).insert
        (tracked_entry 1 2 .Buy 5 "u")) ∧
    (tracked_entry 1 2 .Buy 5 "u" ∉
        (⟨[⟨1, ⟨1, 1, .Buy, "a"⟩⟩], 3000⟩ : TopN OrderTrackingItem).set →
      (⟨[⟨1, ⟨1, 1, .Buy, "a"⟩⟩], 3000⟩ : TopN OrderTrackingItem).set.length <
        (⟨[⟨1, ⟨1, 1, .Buy, "a"⟩⟩], 3000⟩ : TopN OrderTrackingItem).capacity →
      tracked_entry 1 2 .Buy 5 "u" ∈
        ((⟨[⟨1, ⟨1, 1, .Buy, "a"⟩⟩], 3000⟩ : TopN OrderTrackingItem).insert
          (tracked_entry 1 2 .Buy 5 "u")).set) :=
  add_order_tracking_persist_failure_keeps_insert
    ⟨"X", .Buy, some 1, some 2⟩ 1 2 5 "u"
    ⟨[⟨1, ⟨1, 1, .Buy, "a"⟩⟩], 3000⟩ none rfl rfl (by simp)
